import Mathlib

/-!
Shallow embedding of the reservation core of janelia-flyem/librarian
(src/reserve.go): the in-memory reservation table (`vchk`), the mutation
operations `checkout`, `checkin`, `reset`, the read-only queries
`getCheckout`, `getCheckouts`, `getUUIDs`, the log-line writer and parser,
and the replay loop of `initLibrary`.  Go maps are modelled as association
lists with map semantics (lookup finds the binding for a key, insert
replaces it, delete removes every binding for the key — a Go map never
holds two bindings for one key, so this is the same function).
-/

namespace Librarian

/-- Association-list lookup, modelling Go map indexing `m[k]`. -/
def lookupA {α β : Type} [DecidableEq α] : List (α × β) → α → Option β
  | [], _ => none
  | (k, v) :: rest, a => if k = a then some v else lookupA rest a

/-- Association-list insert, modelling Go map assignment `m[k] = v`:
replaces the binding for the key if present, otherwise adds it. -/
def insertA {α β : Type} [DecidableEq α] : List (α × β) → α → β → List (α × β)
  | [], a, b => [(a, b)]
  | (k, v) :: rest, a, b => if k = a then (a, b) :: rest else (k, v) :: insertA rest a b

/-- Association-list delete, modelling Go `delete(m, k)`: removes every
binding for the key (a Go map has at most one). -/
def eraseA {α β : Type} [DecidableEq α] : List (α × β) → α → List (α × β)
  | [], _ => []
  | (k, v) :: rest, a => if k = a then eraseA rest a else (k, v) :: eraseA rest a

theorem lookupA_insertA_self {α β : Type} [DecidableEq α] (l : List (α × β)) (a : α) (b : β) :
    lookupA (insertA l a b) a = some b := by
  induction l with
  | nil => simp [insertA, lookupA]
  | cons p rest ih =>
    obtain ⟨k, v⟩ := p
    by_cases h : k = a
    · simp [insertA, lookupA, h]
    · simp [insertA, lookupA, h, ih]

theorem lookupA_insertA_ne {α β : Type} [DecidableEq α] (l : List (α × β)) (a a' : α) (b : β)
    (h : a' ≠ a) : lookupA (insertA l a b) a' = lookupA l a' := by
  induction l with
  | nil => simp [insertA, lookupA, Ne.symm h]
  | cons p rest ih =>
    obtain ⟨k, v⟩ := p
    by_cases hk : k = a
    · subst hk
      simp [insertA, lookupA, Ne.symm h]
    · by_cases hk' : k = a'
      · simp [insertA, lookupA, hk, hk', h]
      · simp [insertA, lookupA, hk, hk', ih]

theorem lookupA_eraseA_self {α β : Type} [DecidableEq α] (l : List (α × β)) (a : α) :
    lookupA (eraseA l a) a = none := by
  induction l with
  | nil => simp [eraseA, lookupA]
  | cons p rest ih =>
    obtain ⟨k, v⟩ := p
    by_cases h : k = a
    · simp [eraseA, h, ih]
    · simp [eraseA, lookupA, h, ih]

theorem lookupA_eraseA_ne {α β : Type} [DecidableEq α] (l : List (α × β)) (a a' : α)
    (h : a' ≠ a) : lookupA (eraseA l a) a' = lookupA l a' := by
  induction l with
  | nil => simp [eraseA]
  | cons p rest ih =>
    obtain ⟨k, v⟩ := p
    by_cases hk : k = a
    · subst hk
      simp [eraseA, lookupA, Ne.symm h, ih]
    · by_cases hk' : k = a'
      · simp [eraseA, lookupA, hk, hk', h]
      · simp [eraseA, lookupA, hk, hk', ih]

theorem lookupA_isSome_iff_mem_keys {α β : Type} [DecidableEq α] (l : List (α × β)) (a : α) :
    (lookupA l a).isSome = true ↔ a ∈ l.map Prod.fst := by
  induction l with
  | nil => simp [lookupA]
  | cons p rest ih =>
    obtain ⟨k, v⟩ := p
    by_cases h : k = a
    · subst h
      simp [lookupA]
    · simp [lookupA, h, ih, Ne.symm h]

theorem mem_keys_insertA_self {α β : Type} [DecidableEq α] (l : List (α × β)) (a : α) (b : β) :
    a ∈ (insertA l a b).map Prod.fst := by
  rw [← lookupA_isSome_iff_mem_keys, lookupA_insertA_self]
  rfl

/-- Operation kinds, `opType` in reserve.go. -/
inductive opType where
  | UnknownOp
  | CheckoutOp
  | CheckinOp
  | ResetOp
deriving DecidableEq

/-- The `String()` method of `opType`. -/
def opType.toString : opType → String
  | .CheckoutOp => "checkout"
  | .CheckinOp => "checkin"
  | .ResetOp => "reset"
  | .UnknownOp => "unknown-op"

/-- The `opTypeFromString` function of reserve.go. -/
def opTypeFromString (s : String) : opType :=
  if s = "checkout" then .CheckoutOp
  else if s = "checkin" then .CheckinOp
  else if s = "reset" then .ResetOp
  else .UnknownOp

/-- A parsed log entry (`libraryOp` in reserve.go); the timestamp field is
dropped because no table mutation or claim depends on it. -/
structure libraryOp where
  op : opType
  uuid : String
  label : Nat
  client : String
deriving DecidableEq

/-- The per-namespace checkout map `checkoutsT` (label to client). -/
abbrev checkoutsT := List (Nat × String)

/-- The table `vchk` of `libraryT`: namespace to checkouts. -/
abbrev vchkT := List (String × checkoutsT)

/-- The mutable state of `libraryT` that the claims observe: the table
`vchk` and the sequence of entries appended to the durable log. -/
structure LibState where
  vchk : vchkT
  log : List libraryOp
deriving DecidableEq

/-- The empty state produced at the start of `initLibrary`. -/
def emptyState : LibState := { vchk := [], log := [] }

/-- Errors returned by the mutation operations, one constructor per
`fmt.Errorf` site in checkout/checkin. -/
inductive resErr where
  | alreadyCheckedOut (uuid : String) (label : Nat) (holder : String)
  | checkedOutToOther (uuid : String) (label : Nat) (holder client : String)
  | notCheckedOut (uuid : String) (label : Nat)
  | noActiveCheckout (uuid : String) (label : Nat) (client : String)
deriving DecidableEq

/-- The log entry built for a mutation (`libraryOp` literal in the Go
mutators; `reset` uses label 0, the uint64 zero value, and client n/a). -/
def logEntry (op : opType) (uuid : String) (label : Nat) (client : String) : libraryOp :=
  { op := op, uuid := uuid, label := label, client := client }

/-- Conditional log append: the `if modifyLog` block shared by the three
mutators, with `libraryT.write` succeeding. -/
def logIf (modifyLog : Bool) (e : libraryOp) (log : List libraryOp) : List libraryOp :=
  if modifyLog then log ++ [e] else log

/-- The table mutation of `checkout` (reserve.go lines 229 to 244): if the
namespace is absent, create it with the single binding; if present and the
label is unheld, bind it; if held by the same client, leave the table as
is; if held by another client, fail naming the holder. -/
def checkoutCore (uuid : String) (label : Nat) (clientid : String) (vchk : vchkT) :
    Except resErr vchkT :=
  match lookupA vchk uuid with
  | some checkouts =>
    match lookupA checkouts label with
    | some client =>
      if client ≠ clientid then .error (.alreadyCheckedOut uuid label client)
      else .ok vchk
    | none => .ok (insertA vchk uuid (insertA checkouts label clientid))
  | none => .ok (insertA vchk uuid (insertA [] label clientid))

/-- `checkout` of reserve.go: the table mutation followed, on success, by
the conditional log append; on error the function returns before any
mutation, so the state is unchanged. -/
def checkout (uuid : String) (label : Nat) (clientid : String) (modifyLog : Bool)
    (s : LibState) : Option resErr × LibState :=
  match checkoutCore uuid label clientid s.vchk with
  | .error e => (some e, s)
  | .ok v =>
    (none, { vchk := v, log := logIf modifyLog (logEntry .CheckoutOp uuid label clientid) s.log })

/-- The table mutation of `checkin` (reserve.go lines 303 to 317): fails if
the namespace is absent, the label unheld, or held by a different client;
on success deletes exactly the binding for the label. -/
def checkinCore (uuid : String) (label : Nat) (clientid : String) (vchk : vchkT) :
    Except resErr vchkT :=
  match lookupA vchk uuid with
  | some checkouts =>
    match lookupA checkouts label with
    | some client =>
      if client ≠ clientid then .error (.checkedOutToOther uuid label client clientid)
      else .ok (insertA vchk uuid (eraseA checkouts label))
    | none => .error (.notCheckedOut uuid label)
  | none => .error (.noActiveCheckout uuid label clientid)

/-- `checkin` of reserve.go: table mutation, then conditional log append. -/
def checkin (uuid : String) (label : Nat) (clientid : String) (modifyLog : Bool)
    (s : LibState) : Option resErr × LibState :=
  match checkinCore uuid label clientid s.vchk with
  | .error e => (some e, s)
  | .ok v =>
    (none, { vchk := v, log := logIf modifyLog (logEntry .CheckinOp uuid label clientid) s.log })

/-- `reset` of reserve.go: unconditionally deletes the namespace from the
table and, when logging, appends a reset entry; it never returns an error. -/
def reset (uuid : String) (modifyLog : Bool) (s : LibState) : Option resErr × LibState :=
  (none, { vchk := eraseA s.vchk uuid, log := logIf modifyLog (logEntry .ResetOp uuid 0 "n/a") s.log })

/-- `getCheckout` of reserve.go: the client holding (uuid, label), with a
found flag; the client string stays at its zero value when not found. -/
def getCheckout (uuid : String) (label : Nat) (s : LibState) : String × Bool :=
  match lookupA s.vchk uuid with
  | some checkouts =>
    match lookupA checkouts label with
    | some client => (client, true)
    | none => ("", false)
  | none => ("", false)

/-- `getCheckouts` of reserve.go: the whole checkout set of a namespace
with a found flag (the Go nil map is the empty list). -/
def getCheckouts (uuid : String) (s : LibState) : checkoutsT × Bool :=
  match lookupA s.vchk uuid with
  | some checkouts => (checkouts, true)
  | none => ([], false)

/-- `getUUIDs` of reserve.go: the keys currently present in the table. -/
def getUUIDs (s : LibState) : List String :=
  s.vchk.map Prod.fst

/-- C1: for every reservation table state, checkout(namespace, label,
client) is a trichotomy: an unheld label is assigned to the client and the
call succeeds; a label already held by the same client succeeds and leaves
the table unchanged; a label held by a different client yields a Conflict
error naming the holder, with table and log unchanged. -/
theorem checkout_trichotomy (s : LibState) (u : String) (l : Nat) (c : String) (ml : Bool) :
    ((getCheckout u l s).2 = false →
      (checkout u l c ml s).1 = none ∧ getCheckout u l (checkout u l c ml s).2 = (c, true)) ∧
    (getCheckout u l s = (c, true) →
      (checkout u l c ml s).1 = none ∧ ((checkout u l c ml s).2).vchk = s.vchk) ∧
    (∀ holder, getCheckout u l s = (holder, true) → holder ≠ c →
      checkout u l c ml s = (some (resErr.alreadyCheckedOut u l holder), s)) := by
  refine ⟨?_, ?_, ?_⟩
  · intro hfree
    match hv : lookupA s.vchk u with
    | none =>
      refine ⟨by simp [checkout, checkoutCore, hv], ?_⟩
      simp [checkout, checkoutCore, hv, getCheckout, lookupA_insertA_self]
    | some cs =>
      match hl : lookupA cs l with
      | none =>
        refine ⟨by simp [checkout, checkoutCore, hv, hl], ?_⟩
        simp [checkout, checkoutCore, hv, hl, getCheckout, lookupA_insertA_self]
      | some holder =>
        exfalso
        simp [getCheckout, hv, hl] at hfree
  · intro hheld
    match hv : lookupA s.vchk u with
    | none => simp [getCheckout, hv] at hheld
    | some cs =>
      match hl : lookupA cs l with
      | none => simp [getCheckout, hv, hl] at hheld
      | some holder =>
        have hc : holder = c := by
          simpa [getCheckout, hv, hl] using congrArg Prod.fst hheld
        subst hc
        simp [checkout, checkoutCore, hv, hl]
  · intro holder hheld hne
    match hv : lookupA s.vchk u with
    | none => simp [getCheckout, hv] at hheld
    | some cs =>
      match hl : lookupA cs l with
      | none => simp [getCheckout, hv, hl] at hheld
      | some holder' =>
        have hc : holder' = holder := by
          simpa [getCheckout, hv, hl] using congrArg Prod.fst hheld
        subst hc
        simp [checkout, checkoutCore, hv, hl, hne]

/-- Witness for checkout_trichotomy: on the table holding (10, alice) in
namespace u1, a fresh label is granted, a re-checkout by alice succeeds
without change, and a checkout by bob is refused naming alice. -/
theorem checkout_trichotomy_witness :
    ((checkout "u1" 11 "bob" true { vchk := [("u1", [(10, "alice")])], log := [] }).1 = none ∧
      getCheckout "u1" 11
        (checkout "u1" 11 "bob" true { vchk := [("u1", [(10, "alice")])], log := [] }).2 =
        ("bob", true)) ∧
    ((checkout "u1" 10 "alice" true { vchk := [("u1", [(10, "alice")])], log := [] }).1 = none ∧
      ((checkout "u1" 10 "alice" true { vchk := [("u1", [(10, "alice")])], log := [] }).2).vchk =
        [("u1", [(10, "alice")])]) ∧
    (checkout "u1" 10 "bob" true { vchk := [("u1", [(10, "alice")])], log := [] } =
      (some (resErr.alreadyCheckedOut "u1" 10 "alice"),
        { vchk := [("u1", [(10, "alice")])], log := [] })) := by
  refine ⟨?_, ?_, ?_⟩
  · exact (checkout_trichotomy { vchk := [("u1", [(10, "alice")])], log := [] }
      "u1" 11 "bob" true).1 (by decide)
  · exact (checkout_trichotomy { vchk := [("u1", [(10, "alice")])], log := [] }
      "u1" 10 "alice" true).2.1 (by decide)
  · exact (checkout_trichotomy { vchk := [("u1", [(10, "alice")])], log := [] }
      "u1" 10 "bob" true).2.2 "alice" (by decide) (by decide)

/-- C2: checkin(namespace, label, client) errors exactly when the namespace
has no reservations, or the label is not held, or it is held by a different
client; on success exactly the binding for that label is removed from the
namespace's set, and on error the state is unchanged. -/
theorem checkin_spec (s : LibState) (u : String) (l : Nat) (c : String) (ml : Bool) :
    ((checkin u l c ml s).1 ≠ none ↔
      ((getCheckouts u s).2 = false ∨ (getCheckout u l s).2 = false ∨ (getCheckout u l s).1 ≠ c)) ∧
    ((checkin u l c ml s).1 = none →
      ∃ cs, lookupA s.vchk u = some cs ∧ lookupA cs l = some c ∧
        ((checkin u l c ml s).2).vchk = insertA s.vchk u (eraseA cs l)) ∧
    ((checkin u l c ml s).1 ≠ none → (checkin u l c ml s).2 = s) := by
  match hv : lookupA s.vchk u with
  | none =>
    refine ⟨?_, ?_, ?_⟩
    · simp [checkin, checkinCore, hv, getCheckouts]
    · simp [checkin, checkinCore, hv]
    · simp [checkin, checkinCore, hv]
  | some cs =>
    match hl : lookupA cs l with
    | none =>
      refine ⟨?_, ?_, ?_⟩
      · simp [checkin, checkinCore, hv, hl, getCheckout]
      · simp [checkin, checkinCore, hv, hl]
      · simp [checkin, checkinCore, hv, hl]
    | some holder =>
      by_cases hc : holder = c
      · subst hc
        refine ⟨?_, ?_, ?_⟩
        · simp [checkin, checkinCore, hv, hl, getCheckouts, getCheckout]
        · intro _
          exact ⟨cs, rfl, hl, by simp [checkin, checkinCore, hv, hl]⟩
        · simp [checkin, checkinCore, hv, hl]
      · refine ⟨?_, ?_, ?_⟩
        · simp [checkin, checkinCore, hv, hl, hc, getCheckout]
        · simp [checkin, checkinCore, hv, hl, hc]
        · simp [checkin, checkinCore, hv, hl, hc]

/-- Witness for checkin_spec: on the table holding (10, alice) in u1, a
checkin by alice removes exactly that binding; a checkin by bob errors and
leaves the state unchanged; both instantiate the error characterization. -/
theorem checkin_spec_witness :
    ((checkin "u1" 10 "bob" true { vchk := [("u1", [(10, "alice")])], log := [] }).1 ≠ none) ∧
    (∃ cs, lookupA [("u1", [(10, "alice")])] "u1" = some cs ∧ lookupA cs 10 = some "alice" ∧
      ((checkin "u1" 10 "alice" true { vchk := [("u1", [(10, "alice")])], log := [] }).2).vchk =
        insertA [("u1", [(10, "alice")])] "u1" (eraseA cs 10)) ∧
    ((checkin "u1" 10 "bob" true { vchk := [("u1", [(10, "alice")])], log := [] }).2 =
      { vchk := [("u1", [(10, "alice")])], log := [] }) := by
  refine ⟨?_, ?_, ?_⟩
  · exact (checkin_spec { vchk := [("u1", [(10, "alice")])], log := [] }
      "u1" 10 "bob" true).1.mpr (by decide)
  · exact (checkin_spec { vchk := [("u1", [(10, "alice")])], log := [] }
      "u1" 10 "alice" true).2.1 (by decide)
  · exact (checkin_spec { vchk := [("u1", [(10, "alice")])], log := [] }
      "u1" 10 "bob" true).2.2 (by decide)

/-- C3: reset(namespace) never returns an error, on any state and any
namespace, and afterwards getCheckout reports found equal false for every
label of that namespace. -/
theorem reset_spec (s : LibState) (u : String) (ml : Bool) :
    (reset u ml s).1 = none ∧
    ∀ l : Nat, getCheckout u l ((reset u ml s).2) = ("", false) := by
  refine ⟨rfl, ?_⟩
  intro l
  simp [reset, getCheckout, lookupA_eraseA_self]

/-- C10: a namespace key is removed only by reset, never by checkin: a
successful checkin keeps the namespace present (getCheckouts found, listed
by getUUIDs) with exactly the label's binding erased, so checking in the
last label leaves an empty set; reset removes the key, making getCheckouts
report not found and delisting the namespace. -/
theorem namespace_removal_policy (s : LibState) (u : String) (l : Nat) (c : String) (ml : Bool) :
    ((checkin u l c ml s).1 = none →
      (getCheckouts u ((checkin u l c ml s).2)).2 = true ∧
      u ∈ getUUIDs ((checkin u l c ml s).2) ∧
      ∀ cs, lookupA s.vchk u = some cs →
        getCheckouts u ((checkin u l c ml s).2) = (eraseA cs l, true)) ∧
    (getCheckouts u ((reset u ml s).2) = ([], false) ∧
      u ∉ getUUIDs ((reset u ml s).2)) := by
  constructor
  · intro hok
    match hv : lookupA s.vchk u with
    | none => simp [checkin, checkinCore, hv] at hok
    | some cs =>
      match hl : lookupA cs l with
      | none => simp [checkin, checkinCore, hv, hl] at hok
      | some holder =>
        by_cases hc : holder = c
        · subst hc
          refine ⟨?_, ?_, ?_⟩
          · simp [checkin, checkinCore, hv, hl, getCheckouts, lookupA_insertA_self]
          · simp only [checkin, checkinCore, hv, hl, ite_not]
            simpa [getUUIDs] using mem_keys_insertA_self s.vchk u (eraseA cs l)
          · intro cs' hcs'
            injection hcs' with hcseq
            subst hcseq
            simp [checkin, checkinCore, hv, hl, getCheckouts, lookupA_insertA_self]
        · simp [checkin, checkinCore, hv, hl, hc] at hok
  · constructor
    · simp [reset, getCheckouts, lookupA_eraseA_self]
    · intro hmem
      have : (lookupA (eraseA s.vchk u) u).isSome = true :=
        (lookupA_isSome_iff_mem_keys (eraseA s.vchk u) u).mpr (by simpa [reset, getUUIDs] using hmem)
      rw [lookupA_eraseA_self] at this
      exact Bool.noConfusion this

/-- Witness for namespace_removal_policy: checking in the single held label
of u1 leaves u1 present with an empty set and still listed; resetting u1
removes it. -/
theorem namespace_removal_policy_witness :
    ((getCheckouts "u1"
        ((checkin "u1" 10 "alice" true { vchk := [("u1", [(10, "alice")])], log := [] }).2)).2 = true ∧
      "u1" ∈ getUUIDs
        ((checkin "u1" 10 "alice" true { vchk := [("u1", [(10, "alice")])], log := [] }).2) ∧
      ∀ cs, lookupA [("u1", [(10, "alice")])] "u1" = some cs →
        getCheckouts "u1"
          ((checkin "u1" 10 "alice" true { vchk := [("u1", [(10, "alice")])], log := [] }).2) =
          (eraseA cs 10, true)) ∧
    (getCheckouts "u1" ((reset "u1" true { vchk := [("u1", [(10, "alice")])], log := [] }).2) =
        ([], false) ∧
      "u1" ∉ getUUIDs ((reset "u1" true { vchk := [("u1", [(10, "alice")])], log := [] }).2)) := by
  constructor
  · exact (namespace_removal_policy { vchk := [("u1", [(10, "alice")])], log := [] }
      "u1" 10 "alice" true).1 (by decide)
  · exact (namespace_removal_policy { vchk := [("u1", [(10, "alice")])], log := [] }
      "u1" 10 "alice" true).2

/-- An external Coordination API mutation request (the three PUT routes). -/
inductive apiCall where
  | co (uuid : String) (label : Nat) (client : String)
  | ci (uuid : String) (label : Nat) (client : String)
  | rs (uuid : String)
deriving DecidableEq

/-- Dispatch one API call with the given modifyLog flag. -/
def callResult (s : LibState) : apiCall → Bool → Option resErr × LibState
  | .co u l c, ml => checkout u l c ml s
  | .ci u l c, ml => checkin u l c ml s
  | .rs u, ml => reset u ml s

/-- The log entry a given call appends when it succeeds with logging on. -/
def callEntry : apiCall → libraryOp
  | .co u l c => logEntry .CheckoutOp u l c
  | .ci u l c => logEntry .CheckinOp u l c
  | .rs u => logEntry .ResetOp u 0 "n/a"

/-- Apply one flagged call, keeping the state the call leaves behind (on
error the mutators leave the state untouched). -/
def applyCallM (s : LibState) (cm : apiCall × Bool) : LibState :=
  (callResult s cm.1 cm.2).2

/-- Run a sequence of flagged calls from a starting state. -/
def runFrom (s : LibState) (cs : List (apiCall × Bool)) : LibState :=
  cs.foldl applyCallM s

/-- Reference accounting of the entries the calls append: one entry per
call that runs with logging on and succeeds, in call order. -/
def loggedEntries : LibState → List (apiCall × Bool) → List libraryOp
  | _, [] => []
  | s, (c, ml) :: rest =>
    (if ml = true ∧ (callResult s c ml).1 = none then [callEntry c] else []) ++
      loggedEntries (applyCallM s (c, ml)) rest

theorem callResult_log (s : LibState) (c : apiCall) (ml : Bool) :
    (callResult s c ml).2.log =
      s.log ++ (if ml = true ∧ (callResult s c ml).1 = none then [callEntry c] else []) := by
  match c with
  | .co u l cl =>
    match h : checkoutCore u l cl s.vchk with
    | .error e => simp [callResult, checkout, h]
    | .ok v => cases ml <;> simp [callResult, checkout, h, callEntry, logIf]
  | .ci u l cl =>
    match h : checkinCore u l cl s.vchk with
    | .error e => simp [callResult, checkin, h]
    | .ok v => cases ml <;> simp [callResult, checkin, h, callEntry, logIf]
  | .rs u => cases ml <;> simp [callResult, reset, callEntry, logIf]

/-- Log growth when every durable append succeeds: one entry per
successful call made with logging on, in call order; failed calls and
logging-off calls append nothing.  The case of a failing durable append is
treated by log_appends_durable below. -/
theorem log_appends_exact (s : LibState) (cs : List (apiCall × Bool)) :
    (runFrom s cs).log = s.log ++ loggedEntries s cs := by
  induction cs generalizing s with
  | nil => simp [runFrom, loggedEntries]
  | cons cm rest ih =>
    obtain ⟨c, ml⟩ := cm
    have h1 : runFrom s ((c, ml) :: rest) = runFrom (applyCallM s (c, ml)) rest := rfl
    rw [h1, ih, loggedEntries]
    have h2 : (applyCallM s (c, ml)).log = (callResult s c ml).2.log := rfl
    rw [h2, callResult_log, List.append_assoc]

/-- Replay dispatch of one parsed entry: the switch in the loop of
initLibrary, running the mutation with modifyLog false and discarding its
error; an UnknownOp entry aborts initialization. -/
def replayStep (s : LibState) (e : libraryOp) : Except String LibState :=
  match e.op with
  | .CheckoutOp => .ok (checkout e.uuid e.label e.client false s).2
  | .CheckinOp => .ok (checkin e.uuid e.label e.client false s).2
  | .ResetOp => .ok (reset e.uuid false s).2
  | .UnknownOp => .error "bad log op found in initLibrary!  Should not happen."

/-- Replay of a list of parsed entries in file order. -/
def replayLoop : List libraryOp → LibState → Except String LibState
  | [], s => .ok s
  | e :: rest, s =>
    match replayStep s e with
    | .error err => .error err
    | .ok s' => replayLoop rest s'

theorem replayLoop_append (L1 L2 : List libraryOp) (s : LibState) :
    replayLoop (L1 ++ L2) s =
      match replayLoop L1 s with
      | .error e => .error e
      | .ok s' => replayLoop L2 s' := by
  induction L1 generalizing s with
  | nil => rfl
  | cons e rest ih =>
    show replayLoop (e :: (rest ++ L2)) s = _
    rw [replayLoop]
    match h : replayStep s e with
    | .error err => simp [replayLoop, h]
    | .ok s' => simp [replayLoop, h, ih]

/-- A live call: logging on, as the HTTP handlers invoke the mutators. -/
def applyCall (s : LibState) (c : apiCall) : LibState :=
  applyCallM s (c, true)

/-- A live run of API calls starting from the empty table. -/
def runLive (calls : List apiCall) : LibState :=
  calls.foldl applyCall emptyState

/-- Replay reconstructs a state: replaying its log from scratch succeeds
and rebuilds exactly its table. -/
def ReplayInv (s : LibState) : Prop :=
  replayLoop s.log emptyState = .ok { vchk := s.vchk, log := [] }

theorem replayInv_applyCall (s : LibState) (c : apiCall) (h : ReplayInv s) :
    ReplayInv (applyCall s c) := by
  match c with
  | .co u l cl =>
    match hc : checkoutCore u l cl s.vchk with
    | .error e =>
      have : applyCall s (.co u l cl) = s := by
        simp [applyCall, applyCallM, callResult, checkout, hc]
      rw [this]
      exact h
    | .ok v =>
      have hstate : applyCall s (.co u l cl) =
          { vchk := v, log := s.log ++ [logEntry .CheckoutOp u l cl] } := by
        simp [applyCall, applyCallM, callResult, checkout, hc, logIf]
      rw [ReplayInv, hstate]
      show replayLoop (s.log ++ [logEntry .CheckoutOp u l cl]) emptyState = _
      rw [replayLoop_append, h]
      simp [replayLoop, replayStep, logEntry, checkout, hc, logIf]
  | .ci u l cl =>
    match hc : checkinCore u l cl s.vchk with
    | .error e =>
      have : applyCall s (.ci u l cl) = s := by
        simp [applyCall, applyCallM, callResult, checkin, hc]
      rw [this]
      exact h
    | .ok v =>
      have hstate : applyCall s (.ci u l cl) =
          { vchk := v, log := s.log ++ [logEntry .CheckinOp u l cl] } := by
        simp [applyCall, applyCallM, callResult, checkin, hc, logIf]
      rw [ReplayInv, hstate]
      show replayLoop (s.log ++ [logEntry .CheckinOp u l cl]) emptyState = _
      rw [replayLoop_append, h]
      simp [replayLoop, replayStep, logEntry, checkin, hc, logIf]
  | .rs u =>
    have hstate : applyCall s (.rs u) =
        { vchk := eraseA s.vchk u, log := s.log ++ [logEntry .ResetOp u 0 "n/a"] } := by
      simp [applyCall, applyCallM, callResult, reset, logIf]
    rw [ReplayInv, hstate]
    show replayLoop (s.log ++ [logEntry .ResetOp u 0 "n/a"]) emptyState = _
    rw [replayLoop_append, h]
    simp [replayLoop, replayStep, logEntry, reset, logIf]

/-- Structured-entry replay of a live run's log rebuilds exactly the table
the run built: the entry-level half of log replay, before serialization
enters the picture (the full textual statement is
replay_text_reconstructs below).  The live run models every durable
append as succeeding. -/
theorem replayLoop_runLive (calls : List apiCall) :
    replayLoop (runLive calls).log emptyState =
      .ok { vchk := (runLive calls).vchk, log := [] } := by
  have main : ∀ cs : List apiCall, ∀ s : LibState, ReplayInv s → ReplayInv (cs.foldl applyCall s) := by
    intro cs
    induction cs with
    | nil => intro s h; exact h
    | cons c rest ih =>
      intro s h
      exact ih (applyCall s c) (replayInv_applyCall s c h)
  exact main calls emptyState rfl

/-- Whether a namespace key is present in the table. -/
def keyPresent (s : LibState) (ns : String) : Bool :=
  (lookupA s.vchk ns).isSome

theorem keyPresent_checkout (u : String) (l : Nat) (c : String) (ml : Bool) (s : LibState)
    (ns : String) :
    keyPresent ((checkout u l c ml s).2) ns = if u = ns then true else keyPresent s ns := by
  match hv : lookupA s.vchk u with
  | none =>
    by_cases hns : u = ns
    · subst hns
      simp [checkout, checkoutCore, hv, keyPresent, lookupA_insertA_self]
    · simp [checkout, checkoutCore, hv, keyPresent, lookupA_insertA_ne _ _ _ _ (Ne.symm hns), hns]
  | some cs =>
    match hl : lookupA cs l with
    | none =>
      by_cases hns : u = ns
      · subst hns
        simp [checkout, checkoutCore, hv, hl, keyPresent, lookupA_insertA_self]
      · simp [checkout, checkoutCore, hv, hl, keyPresent,
          lookupA_insertA_ne _ _ _ _ (Ne.symm hns), hns]
    | some holder =>
      by_cases hc : holder = c
      · subst hc
        by_cases hns : u = ns
        · subst hns
          simp [checkout, checkoutCore, hv, hl, keyPresent]
        · simp [checkout, checkoutCore, hv, hl, keyPresent, hns]
      · by_cases hns : u = ns
        · subst hns
          simp [checkout, checkoutCore, hv, hl, hc, keyPresent]
        · simp [checkout, checkoutCore, hv, hl, hc, keyPresent, hns]

theorem keyPresent_checkin (u : String) (l : Nat) (c : String) (ml : Bool) (s : LibState)
    (ns : String) :
    keyPresent ((checkin u l c ml s).2) ns = keyPresent s ns := by
  match hv : lookupA s.vchk u with
  | none => simp [checkin, checkinCore, hv]
  | some cs =>
    match hl : lookupA cs l with
    | none => simp [checkin, checkinCore, hv, hl]
    | some holder =>
      by_cases hc : holder = c
      · subst hc
        by_cases hns : u = ns
        · subst hns
          simp [checkin, checkinCore, hv, hl, keyPresent, lookupA_insertA_self, hv]
        · simp [checkin, checkinCore, hv, hl, keyPresent,
            lookupA_insertA_ne _ _ _ _ (Ne.symm hns)]
      · simp [checkin, checkinCore, hv, hl, hc]

theorem keyPresent_reset (u : String) (ml : Bool) (s : LibState) (ns : String) :
    keyPresent ((reset u ml s).2) ns = if u = ns then false else keyPresent s ns := by
  by_cases hns : u = ns
  · subst hns
    simp [reset, keyPresent, lookupA_eraseA_self]
  · simp [reset, keyPresent, lookupA_eraseA_ne _ _ _ (Ne.symm hns), hns]

/-- Whether a namespace is present after a call sequence, computed from the
calls alone: a checkout to it makes it present, a reset to it removes it,
a checkin never changes key presence. -/
def nsAlive (ns : String) : List apiCall → Bool → Bool
  | [], b => b
  | call :: rest, b =>
    nsAlive ns rest
      (match call with
       | .co u _ _ => if u = ns then true else b
       | .ci _ _ _ => b
       | .rs u => if u = ns then false else b)

theorem keyPresent_foldl (ns : String) (calls : List apiCall) :
    ∀ (s : LibState) (b : Bool), keyPresent s ns = b →
      keyPresent (calls.foldl applyCall s) ns = nsAlive ns calls b := by
  induction calls with
  | nil => intro s b h; exact h
  | cons c rest ih =>
    intro s b h
    rcases c with ⟨u, l, cl⟩ | ⟨u, l, cl⟩ | u
    · show keyPresent (rest.foldl applyCall (applyCall s (.co u l cl))) ns =
        nsAlive ns rest (if u = ns then true else b)
      refine ih (applyCall s (.co u l cl)) (if u = ns then true else b) ?_
      rw [show applyCall s (.co u l cl) = (checkout u l cl true s).2 from rfl,
        keyPresent_checkout, h]
    · show keyPresent (rest.foldl applyCall (applyCall s (.ci u l cl))) ns = nsAlive ns rest b
      refine ih (applyCall s (.ci u l cl)) b ?_
      rw [show applyCall s (.ci u l cl) = (checkin u l cl true s).2 from rfl,
        keyPresent_checkin, h]
    · show keyPresent (rest.foldl applyCall (applyCall s (.rs u))) ns =
        nsAlive ns rest (if u = ns then false else b)
      refine ih (applyCall s (.rs u)) (if u = ns then false else b) ?_
      rw [show applyCall s (.rs u) = (reset u true s).2 from rfl,
        keyPresent_reset, h]

/-- C8 (amended): for every live call sequence, getUUIDs lists exactly the
namespaces with a checkout since their last reset — equivalently the keys
still present in the table.  A namespace emptied by checkins stays listed;
a reset namespace is delisted even though it still has log history. -/
theorem list_namespaces_alive (calls : List apiCall) (ns : String) :
    ns ∈ getUUIDs (runLive calls) ↔ nsAlive ns calls false = true := by
  have hkey : keyPresent (runLive calls) ns = nsAlive ns calls false :=
    keyPresent_foldl ns calls emptyState false rfl
  rw [getUUIDs, ← lookupA_isSome_iff_mem_keys]
  rw [show (lookupA (runLive calls).vchk ns).isSome = keyPresent (runLive calls) ns from rfl, hkey]

/-- Witness for list_namespaces_alive: after checkout into u1 then reset of
u1, u1 is not listed (nsAlive is false); after a checkout alone it is. -/
theorem list_namespaces_alive_witness :
    ("u1" ∉ getUUIDs (runLive [.co "u1" 10 "alice", .rs "u1"])) ∧
    ("u1" ∈ getUUIDs (runLive [.co "u1" 10 "alice"])) := by
  constructor
  · intro hmem
    have := (list_namespaces_alive [.co "u1" 10 "alice", .rs "u1"] "u1").mp hmem
    simp [nsAlive] at this
  · exact (list_namespaces_alive [.co "u1" 10 "alice"] "u1").mpr (by decide)

/-- The state after a live checkout of (u1, 10) by alice followed by a live
reset of u1: both operations are in the log, but the table no longer has
the namespace key. -/
def c8State : LibState :=
  (reset "u1" true ((checkout "u1" 10 "alice" true emptyState).2)).2

/-- Counterexample to C8 as stated: namespace u1 appears in logged
operations (it has history), yet getUUIDs does not list it, because reset
deleted its key from the table. -/
theorem list_namespaces_cex :
    (∃ e ∈ c8State.log, e.uuid = "u1") ∧ "u1" ∉ getUUIDs c8State := by
  decide

/-- Decimal digit character, used to model the Go verb on a uint64. -/
def digitChar (d : Nat) : Char :=
  match d with
  | 0 => '0'
  | 1 => '1'
  | 2 => '2'
  | 3 => '3'
  | 4 => '4'
  | 5 => '5'
  | 6 => '6'
  | 7 => '7'
  | 8 => '8'
  | _ => '9'

/-- Fuel-driven decimal printer; the fuel only forces termination and is
irrelevant once it exceeds the number. -/
def natCharsAux : Nat → Nat → List Char
  | 0, _ => []
  | fuel + 1, n =>
    if n < 10 then [digitChar n] else natCharsAux fuel (n / 10) ++ [digitChar (n % 10)]

/-- Decimal representation of a natural number, most significant digit
first, as the Go formatting verb prints a uint64. -/
def natChars (n : Nat) : List Char :=
  natCharsAux (n + 1) n

theorem natCharsAux_fuel (n : Nat) :
    ∀ fuel fuel' : Nat, n < fuel → n < fuel' → natCharsAux fuel n = natCharsAux fuel' n := by
  induction n using Nat.strong_induction_on with
  | _ n ih =>
    intro fuel fuel' hf hf'
    match fuel, hf with
    | f + 1, _ =>
      match fuel', hf' with
      | f' + 1, _ =>
        show (if n < 10 then [digitChar n] else natCharsAux f (n / 10) ++ [digitChar (n % 10)]) =
          if n < 10 then [digitChar n] else natCharsAux f' (n / 10) ++ [digitChar (n % 10)]
        by_cases h10 : n < 10
        · rw [if_pos h10, if_pos h10]
        · have hlt : n / 10 < n := Nat.div_lt_self (by omega) (by omega)
          rw [if_neg h10, if_neg h10,
            ih (n / 10) hlt f f' (by omega) (by omega)]

theorem natChars_eq (n : Nat) :
    natChars n = if n < 10 then [digitChar n] else natChars (n / 10) ++ [digitChar (n % 10)] := by
  show natCharsAux (n + 1) n = _
  by_cases h10 : n < 10
  · show (if n < 10 then [digitChar n] else natCharsAux n (n / 10) ++ [digitChar (n % 10)]) = _
    rw [if_pos h10, if_pos h10]
  · have hlt : n / 10 < n := Nat.div_lt_self (by omega) (by omega)
    show (if n < 10 then [digitChar n] else natCharsAux n (n / 10) ++ [digitChar (n % 10)]) = _
    rw [if_neg h10, if_neg h10, natCharsAux_fuel (n / 10) n (n / 10 + 1) (by omega) (by omega)]
    rfl

/-- Decimal value of a digit character, none when not a digit. -/
def charDigit (c : Char) : Option Nat :=
  if '0' ≤ c ∧ c ≤ '9' then some (c.toNat - 48) else none

/-- Accumulating decimal scan over characters. -/
def scanNat : List Char → Nat → Option Nat
  | [], acc => some acc
  | c :: rest, acc =>
    match charDigit c with
    | some d => scanNat rest (acc * 10 + d)
    | none => none

/-- Decimal scan of a whole token, as the Go scanning verb reads a number:
at least one digit, all characters digits. -/
def parseNat (l : List Char) : Option Nat :=
  if l = [] then none else scanNat l 0

theorem digitChar_not_ws (d : Nat) : (digitChar d).isWhitespace = false := by
  unfold digitChar
  split <;> decide

theorem charDigit_digitChar (d : Nat) (h : d < 10) : charDigit (digitChar d) = some d := by
  interval_cases d <;> decide

theorem scanNat_append (l1 l2 : List Char) (acc : Nat) :
    scanNat (l1 ++ l2) acc =
      match scanNat l1 acc with
      | some a => scanNat l2 a
      | none => none := by
  induction l1 generalizing acc with
  | nil => rfl
  | cons c rest ih =>
    show scanNat (c :: (rest ++ l2)) acc = _
    rw [scanNat]
    match h : charDigit c with
    | some d => simp [scanNat, h, ih]
    | none => simp [scanNat, h]

theorem scanNat_natChars (n : Nat) :
    ∀ acc : Nat, scanNat (natChars n) acc = some (acc * 10 ^ (natChars n).length + n) := by
  induction n using Nat.strong_induction_on with
  | _ n ih =>
    intro acc
    rw [natChars_eq]
    by_cases h : n < 10
    · rw [if_pos h]
      simp [scanNat, charDigit_digitChar n h]
    · rw [if_neg h]
      have hdiv : n / 10 < n := Nat.div_lt_self (by omega) (by omega)
      rw [scanNat_append, ih (n / 10) hdiv acc]
      have hmod : n % 10 < 10 := Nat.mod_lt n (by omega)
      simp only [scanNat, charDigit_digitChar (n % 10) hmod]
      have hlen : (natChars (n / 10) ++ [digitChar (n % 10)]).length =
          (natChars (n / 10)).length + 1 := by simp
      rw [hlen]
      congr 1
      have hpow : (10 : Nat) ^ ((natChars (n / 10)).length + 1) =
          10 ^ (natChars (n / 10)).length * 10 := pow_succ 10 _
      rw [hpow, show acc * (10 ^ (natChars (n / 10)).length * 10) =
        acc * 10 ^ (natChars (n / 10)).length * 10 from (mul_assoc _ _ _).symm]
      generalize acc * 10 ^ (natChars (n / 10)).length = m
      omega

theorem natChars_ne_nil (n : Nat) : natChars n ≠ [] := by
  rw [natChars_eq]
  by_cases h : n < 10
  · simp [h]
  · simp [h]

theorem natChars_not_ws (n : Nat) : ∀ c ∈ natChars n, c.isWhitespace = false := by
  induction n using Nat.strong_induction_on with
  | _ n ih =>
    intro c hc
    rw [natChars_eq] at hc
    by_cases h : n < 10
    · rw [if_pos h] at hc
      rcases List.mem_singleton.mp hc with rfl
      exact digitChar_not_ws n
    · rw [if_neg h] at hc
      rcases List.mem_append.mp hc with h1 | h1
      · exact ih (n / 10) (Nat.div_lt_self (by omega) (by omega)) c h1
      · rcases List.mem_singleton.mp h1 with rfl
        exact digitChar_not_ws (n % 10)

theorem parseNat_natChars (n : Nat) : parseNat (natChars n) = some n := by
  rw [parseNat, if_neg (natChars_ne_nil n), scanNat_natChars n 0]
  simp

/-- Whitespace tokenizer accumulator: cur holds the reversed current token. -/
def tokAux : List Char → List Char → List (List Char)
  | cur, [] => if cur = [] then [] else [cur.reverse]
  | cur, c :: rest =>
    if c.isWhitespace then
      if cur = [] then tokAux [] rest else cur.reverse :: tokAux [] rest
    else tokAux (c :: cur) rest

/-- Split a line into its whitespace-separated fields, as the Go scanning
verbs consume a string: skip whitespace, read a maximal non-whitespace run. -/
def tokenize (l : List Char) : List (List Char) :=
  tokAux [] l

theorem tokAux_no_ws_prefix (t : List Char) (hw : ∀ c ∈ t, c.isWhitespace = false) :
    ∀ (cur rest : List Char), tokAux cur (t ++ rest) = tokAux (t.reverse ++ cur) rest := by
  induction t with
  | nil => intro cur rest; rfl
  | cons x t' ih =>
    intro cur rest
    have hx : x.isWhitespace = false := hw x (List.mem_cons_self x t')
    show tokAux cur (x :: (t' ++ rest)) = _
    rw [tokAux, if_neg (by simp [hx])]
    rw [ih (fun c hc => hw c (List.mem_cons_of_mem x hc)) (x :: cur) rest]
    simp

theorem tokenize_token (t : List Char) (ht : t ≠ []) (hw : ∀ c ∈ t, c.isWhitespace = false)
    (c : Char) (hc : c.isWhitespace = true) (rest : List Char) :
    tokenize (t ++ c :: rest) = t :: tokenize rest := by
  rw [tokenize, tokAux_no_ws_prefix t hw [] (c :: rest)]
  rw [tokAux, if_pos hc, if_neg (by simpa using ht)]
  simp [tokenize]

/-- The line written for one entry by libraryT.write: timestamp, namespace,
operation keyword, decimal label and client, single-space separated and
newline terminated. -/
def serializeOp (ts : List Char) (op : libraryOp) : List Char :=
  ts ++ ' ' :: (op.uuid.data ++ ' ' :: ((opType.toString op.op).data ++ ' ' ::
    (natChars op.label ++ ' ' :: (op.client.data ++ ['\n']))))

/-- First five fields of a token list, none when fewer than five exist:
the shape the five scanning verbs require (extra trailing fields are left
unread by the scanner). -/
def fields5 (toks : List (List Char)) :
    Option (List Char × List Char × List Char × List Char × List Char) :=
  match toks with
  | t1 :: t2 :: t3 :: t4 :: t5 :: _ => some (t1, t2, t3, t4, t5)
  | _ => none

/-- The log-line parser parseLogLine of reserve.go.  The Go code scans five
whitespace-separated fields, reads the fourth as a decimal number, then
parses the timestamp; timestamp parsing (the time package, outside this
repository) is the parameter parseTime, true on strings it accepts.  An
unknown operation keyword is not an error here: it yields UnknownOp,
rejected later by initLibrary. -/
def parseLogLine (parseTime : String → Bool) (line : List Char) : Except String libraryOp :=
  match fields5 (tokenize line) with
  | some (tsTok, uuidTok, opTok, labelTok, clientTok) =>
    match parseNat labelTok with
    | none => .error "could not parse log line"
    | some label =>
      if parseTime (String.mk tsTok) then
        .ok { op := opTypeFromString (String.mk opTok), uuid := String.mk uuidTok,
              label := label, client := String.mk clientTok }
      else .error "could not parse log line timestamp"
  | none => .error "could not parse log line"

/-- The replay loop of initLibrary: parse each line in file order, apply it
through the mutation functions with logging off, abort on any parse error
or unknown operation. -/
def initLoop (parseTime : String → Bool) : List (List Char) → LibState → Except String LibState
  | [], s => .ok s
  | line :: rest, s =>
    match parseLogLine parseTime line with
    | .error e => .error e
    | .ok op =>
      match replayStep s op with
      | .error err => .error err
      | .ok s' => initLoop parseTime rest s'

/-- initLibrary of reserve.go on the lines of the log file: replay from the
empty table. -/
def initLibrary (parseTime : String → Bool) (lines : List (List Char)) :
    Except String LibState :=
  initLoop parseTime lines emptyState

theorem opTypeFromString_toString (o : opType) : opTypeFromString (opType.toString o) = o := by
  cases o <;> rfl

/-- Model of RFC-3339 timestamp acceptance restricted to the one timestamp
used in concrete instances below; the Go time package accepts it. -/
def rfc3339Stub (s : String) : Bool :=
  s = "2024-01-01T00:00:00Z"

/-- Serialization followed by parsing recovers the entry whenever the
timestamp, namespace and client are nonempty and whitespace-free: the core
round-trip fact behind both the write/parse claim and textual replay. -/
theorem parse_serializeOp (parseTime : String → Bool) (ts : String) (op : libraryOp)
    (hts1 : parseTime ts = true)
    (hts2 : ∀ ch ∈ ts.data, ch.isWhitespace = false) (hts3 : ts.data ≠ [])
    (hu1 : ∀ ch ∈ op.uuid.data, ch.isWhitespace = false) (hu2 : op.uuid.data ≠ [])
    (hc1 : ∀ ch ∈ op.client.data, ch.isWhitespace = false) (hc2 : op.client.data ≠ []) :
    parseLogLine parseTime (serializeOp ts.data op) = .ok op := by
  obtain ⟨o, u, l, cl⟩ := op
  obtain ⟨ud⟩ := u
  obtain ⟨cld⟩ := cl
  obtain ⟨tsd⟩ := ts
  have hop1 : (opType.toString o).data ≠ [] := by cases o <;> decide
  have hop2 : ∀ ch ∈ (opType.toString o).data, ch.isWhitespace = false := by
    cases o <;> decide
  have htok : tokenize (serializeOp tsd { op := o, uuid := ⟨ud⟩, label := l, client := ⟨cld⟩ }) =
      [tsd, ud, (opType.toString o).data, natChars l, cld] := by
    show tokenize (tsd ++ ' ' :: (ud ++ ' ' :: ((opType.toString o).data ++ ' ' ::
      (natChars l ++ ' ' :: (cld ++ ['\n']))))) = _
    rw [tokenize_token tsd hts3 hts2 ' ' (by decide),
      tokenize_token ud hu2 hu1 ' ' (by decide),
      tokenize_token _ hop1 hop2 ' ' (by decide),
      tokenize_token (natChars l) (natChars_ne_nil l) (natChars_not_ws l) ' ' (by decide),
      tokenize_token cld hc2 hc1 '\n' (by decide)]
    rfl
  rw [parseLogLine, htok]
  simp only [fields5, parseNat_natChars]
  rw [if_pos hts1]
  rw [opTypeFromString_toString]

/-- C5 (amended): serializing an entry as libraryT.write does and parsing
the line with parseLogLine recovers the namespace, operation kind, label
and client, provided the namespace and client are nonempty and free of
whitespace (a field containing a space or empty shifts or aborts the
whitespace-delimited scan). -/
theorem write_parse_roundtrip (parseTime : String → Bool) (ts : String) (op : libraryOp)
    (hts1 : parseTime ts = true)
    (hts2 : ∀ ch ∈ ts.data, ch.isWhitespace = false) (hts3 : ts.data ≠ [])
    (hu1 : ∀ ch ∈ op.uuid.data, ch.isWhitespace = false) (hu2 : op.uuid.data ≠ [])
    (hc1 : ∀ ch ∈ op.client.data, ch.isWhitespace = false) (hc2 : op.client.data ≠ []) :
    parseLogLine parseTime (serializeOp ts.data op) = .ok op :=
  parse_serializeOp parseTime ts op hts1 hts2 hts3 hu1 hu2 hc1 hc2

/-- Witness for write_parse_roundtrip: a concrete checkout entry round
trips through serialization and parsing. -/
theorem write_parse_roundtrip_witness :
    parseLogLine rfc3339Stub
        (serializeOp "2024-01-01T00:00:00Z".data
          { op := .CheckoutOp, uuid := "u1", label := 10, client := "alice" }) =
      .ok { op := .CheckoutOp, uuid := "u1", label := 10, client := "alice" } := by
  exact write_parse_roundtrip rfc3339Stub "2024-01-01T00:00:00Z"
    { op := .CheckoutOp, uuid := "u1", label := 10, client := "alice" }
    (by decide) (by decide) (by decide) (by decide) (by decide) (by decide) (by decide)

/-- Counterexample to C5 as stated: a client containing a space serializes
to a line whose parse succeeds but recovers a different client, so the
round trip does not hold for every entry. -/
theorem write_parse_cex :
    parseLogLine rfc3339Stub
        (serializeOp "2024-01-01T00:00:00Z".data
          { op := .CheckoutOp, uuid := "u1", label := 10, client := "a b" }) =
      .ok { op := .CheckoutOp, uuid := "u1", label := 10, client := "a" } ∧
    ("a" : String) ≠ "a b" := by
  constructor
  · rfl
  · decide

/-- checkout as run live after startup with the outcome of the durable
append (libraryT.write) made explicit: reserve.go discards the error
returned by library.write, so the caller sees the same result whatever the
write outcome; on a failed write the entry is missing from the durable
log. -/
def checkoutLive (uuid : String) (label : Nat) (clientid : String) (writeErr : Option String)
    (s : LibState) : Option resErr × LibState :=
  match checkoutCore uuid label clientid s.vchk with
  | .error e => (some e, s)
  | .ok v =>
    (none, { vchk := v,
             log := if writeErr = none then s.log ++ [logEntry .CheckoutOp uuid label clientid]
                    else s.log })

/-- checkin as run live after startup, with the append outcome explicit;
the write error is discarded exactly as in checkout. -/
def checkinLive (uuid : String) (label : Nat) (clientid : String) (writeErr : Option String)
    (s : LibState) : Option resErr × LibState :=
  match checkinCore uuid label clientid s.vchk with
  | .error e => (some e, s)
  | .ok v =>
    (none, { vchk := v,
             log := if writeErr = none then s.log ++ [logEntry .CheckinOp uuid label clientid]
                    else s.log })

/-- reset as run live after startup, with the append outcome explicit; the
write error is discarded exactly as in checkout. -/
def resetLive (uuid : String) (writeErr : Option String) (s : LibState) :
    Option resErr × LibState :=
  (none, { vchk := eraseA s.vchk uuid,
           log := if writeErr = none then s.log ++ [logEntry .ResetOp uuid 0 "n/a"]
                  else s.log })

/-- C6 (amended): when the log append fails, every mutating operation still
reports the result of the table mutation — success is returned, the write
error is discarded, and the operation behaves toward caller, table and
durable log exactly like a replay-mode call. -/
theorem append_failure_ignored (u : String) (l : Nat) (c : String) (msg : String)
    (s : LibState) :
    checkoutLive u l c (some msg) s = checkout u l c false s ∧
    checkinLive u l c (some msg) s = checkin u l c false s ∧
    resetLive u (some msg) s = reset u false s := by
  refine ⟨?_, ?_, ?_⟩
  · match h : checkoutCore u l c s.vchk with
    | .error e => simp [checkoutLive, checkout, h]
    | .ok v => simp [checkoutLive, checkout, h, logIf]
  · match h : checkinCore u l c s.vchk with
    | .error e => simp [checkinLive, checkin, h]
    | .ok v => simp [checkinLive, checkin, h, logIf]
  · simp [resetLive, reset, logIf]

/-- Counterexample to C6 as stated: a checkout whose log append fails (the
write returns an error) still returns success to its caller. -/
theorem append_failure_cex :
    (some "write failed" : Option String) ≠ none ∧
    (checkoutLive "u1" 10 "alice" (some "write failed") emptyState).1 = none := by
  constructor
  · decide
  · rfl

/-- A nonempty, whitespace-free string: the shape of a field that survives
the whitespace-delimited log format unchanged. -/
def goodStr (s : String) : Bool :=
  decide (s.data ≠ []) && decide (∀ ch ∈ s.data, ch.isWhitespace = false)

theorem goodStr_spec (s : String) (h : goodStr s = true) :
    s.data ≠ [] ∧ ∀ ch ∈ s.data, ch.isWhitespace = false := by
  rw [goodStr, Bool.and_eq_true, decide_eq_true_eq, decide_eq_true_eq] at h
  exact h

/-- An API call whose caller-supplied namespace and client are nonempty and
whitespace-free. -/
def goodCall : apiCall → Bool
  | .co u _ c => goodStr u && goodStr c
  | .ci u _ c => goodStr u && goodStr c
  | .rs u => goodStr u

/-- A log entry whose namespace and client are nonempty and
whitespace-free. -/
def goodEntry (e : libraryOp) : Bool :=
  goodStr e.uuid && goodStr e.client

theorem goodEntry_callEntry (c : apiCall) (h : goodCall c = true) :
    goodEntry (callEntry c) = true := by
  match c with
  | .co u l cl => simpa [goodCall, goodEntry, callEntry, logEntry] using h
  | .ci u l cl => simpa [goodCall, goodEntry, callEntry, logEntry] using h
  | .rs u =>
    simp only [goodCall] at h
    show goodStr u && goodStr "n/a" = true
    rw [h]
    decide

theorem runLive_log_good (calls : List apiCall) (hcalls : ∀ c ∈ calls, goodCall c = true) :
    ∀ e ∈ (runLive calls).log, goodEntry e = true := by
  suffices h : ∀ (cs : List apiCall) (s : LibState), (∀ c ∈ cs, goodCall c = true) →
      (∀ e ∈ s.log, goodEntry e = true) →
      ∀ e ∈ (cs.foldl applyCall s).log, goodEntry e = true by
    refine h calls emptyState hcalls ?_
    intro e he
    exact absurd he (List.not_mem_nil e)
  intro cs
  induction cs with
  | nil => intro s _ hs; exact hs
  | cons c rest ih =>
    intro s hcs hs
    refine ih (applyCall s c) (fun x hx => hcs x (List.mem_cons_of_mem c hx)) ?_
    intro e he
    rw [show (applyCall s c).log = (callResult s c true).2.log from rfl, callResult_log] at he
    rcases List.mem_append.mp he with h1 | h1
    · exact hs e h1
    · by_cases hc : (true = true ∧ (callResult s c true).1 = none)
      · rw [if_pos hc] at h1
        rcases List.mem_singleton.mp h1 with rfl
        exact goodEntry_callEntry c (hcs c (List.mem_cons_self c rest))
      · rw [if_neg hc] at h1
        exact absurd h1 (List.not_mem_nil e)

theorem initLoop_map_serialize (parseTime : String → Bool) (ts : String)
    (hts1 : parseTime ts = true) (hts2 : ∀ ch ∈ ts.data, ch.isWhitespace = false)
    (hts3 : ts.data ≠ []) :
    ∀ (L : List libraryOp) (s : LibState), (∀ e ∈ L, goodEntry e = true) →
      initLoop parseTime (L.map (serializeOp ts.data)) s = replayLoop L s := by
  intro L
  induction L with
  | nil => intro s _; rfl
  | cons e rest ih =>
    intro s hgood
    have hge := hgood e (List.mem_cons_self e rest)
    rw [goodEntry, Bool.and_eq_true] at hge
    obtain ⟨hgu, hgc⟩ := hge
    obtain ⟨hu2, hu1⟩ := goodStr_spec _ hgu
    obtain ⟨hc2, hc1⟩ := goodStr_spec _ hgc
    have hrest : ∀ x ∈ rest, goodEntry x = true :=
      fun x hx => hgood x (List.mem_cons_of_mem e hx)
    have hparse : parseLogLine parseTime (serializeOp ts.data e) = .ok e :=
      parse_serializeOp parseTime ts e hts1 hts2 hts3 hu1 hu2 hc1 hc2
    show (match parseLogLine parseTime (serializeOp ts.data e) with
          | .error err => Except.error err
          | .ok op =>
            match replayStep s op with
            | .error err => Except.error err
            | .ok s' => initLoop parseTime (rest.map (serializeOp ts.data)) s') = _
    rw [hparse]
    show (match replayStep s e with
          | .error err => Except.error err
          | .ok s' => initLoop parseTime (rest.map (serializeOp ts.data)) s') = _
    match hr : replayStep s e with
    | .error err => simp [replayLoop, hr]
    | .ok s' => simp [replayLoop, hr, ih s' hrest]

/-- C4 (amended): for a sequence of checkout/checkin/reset calls applied
live to the initially empty table, in which every namespace and client is
nonempty and whitespace-free, and with every durable append succeeding,
replaying the resulting log text from scratch — parsing each line in file
order and applying it through the same mutation functions with log appends
suppressed — succeeds and rebuilds exactly the table the live run
produced. -/
theorem replay_text_reconstructs (parseTime : String → Bool) (ts : String)
    (calls : List apiCall) (hts1 : parseTime ts = true)
    (hts2 : ∀ ch ∈ ts.data, ch.isWhitespace = false) (hts3 : ts.data ≠ [])
    (hcalls : ∀ c ∈ calls, goodCall c = true) :
    initLibrary parseTime ((runLive calls).log.map (serializeOp ts.data)) =
      .ok { vchk := (runLive calls).vchk, log := [] } := by
  rw [initLibrary, initLoop_map_serialize parseTime ts hts1 hts2 hts3
    ((runLive calls).log) emptyState (runLive_log_good calls hcalls)]
  exact replayLoop_runLive calls

/-- Witness for replay_text_reconstructs: a checkout, its checkin and a
reset round trip through the textual log back to the live table. -/
theorem replay_text_reconstructs_witness :
    initLibrary rfc3339Stub
        ((runLive [.co "u1" 10 "alice", .ci "u1" 10 "alice", .rs "u1"]).log.map
          (serializeOp "2024-01-01T00:00:00Z".data)) =
      .ok { vchk := (runLive [.co "u1" 10 "alice", .ci "u1" 10 "alice", .rs "u1"]).vchk,
            log := [] } := by
  exact replay_text_reconstructs rfc3339Stub "2024-01-01T00:00:00Z"
    [.co "u1" 10 "alice", .ci "u1" 10 "alice", .rs "u1"]
    (by decide) (by decide) (by decide) (by decide)

/-- Counterexample to C4 as stated: a live checkout by the client a b
writes a log line whose parse recovers the client a, so replaying the
resulting log text rebuilds a table that differs from the live one. -/
theorem replay_text_cex :
    (runLive [.co "u1" 10 "a b"]).vchk = [("u1", [(10, "a b")])] ∧
    initLibrary rfc3339Stub
        ((runLive [.co "u1" 10 "a b"]).log.map (serializeOp "2024-01-01T00:00:00Z".data)) =
      .ok { vchk := [("u1", [(10, "a")])], log := [] } ∧
    ([("u1", [(10, "a")])] : vchkT) ≠ [("u1", [(10, "a b")])] := by
  refine ⟨rfl, rfl, by decide⟩

/-- The logging mode of one call: a replay-mode call never attempts an
append; a live call attempts one whose outcome (the error returned by
libraryT.write, discarded by the callers) is the given option. -/
inductive logMode where
  | replay
  | live (writeErr : Option String)
deriving DecidableEq

/-- Dispatch one call under a logging mode: replay-mode calls run the
mutators with modifyLog false; live calls run the Live variants that make
the discarded write outcome explicit. -/
def callResultM (s : LibState) (c : apiCall) : logMode → Option resErr × LibState
  | .replay => callResult s c false
  | .live we =>
    match c with
    | .co u l cl => checkoutLive u l cl we s
    | .ci u l cl => checkinLive u l cl we s
    | .rs u => resetLive u we s

/-- Whether a mode durably appends: only a live call whose write
succeeded. -/
def appendsEntry : logMode → Bool
  | .replay => false
  | .live we => we.isNone

/-- Apply one moded call, keeping the state it leaves behind. -/
def applyCallFull (s : LibState) (cm : apiCall × logMode) : LibState :=
  (callResultM s cm.1 cm.2).2

/-- Run a sequence of moded calls from a starting state. -/
def runFull (s : LibState) (cs : List (apiCall × logMode)) : LibState :=
  cs.foldl applyCallFull s

/-- Reference accounting of the durable log: one entry per call that
succeeds, runs live, and whose append succeeds, in call order. -/
def loggedEntriesFull : LibState → List (apiCall × logMode) → List libraryOp
  | _, [] => []
  | s, (c, m) :: rest =>
    (if appendsEntry m = true ∧ (callResultM s c m).1 = none then [callEntry c] else []) ++
      loggedEntriesFull (applyCallFull s (c, m)) rest

theorem callResultM_log (s : LibState) (c : apiCall) (m : logMode) :
    (callResultM s c m).2.log =
      s.log ++ (if appendsEntry m = true ∧ (callResultM s c m).1 = none
                then [callEntry c] else []) := by
  match c, m with
  | c, .replay =>
    rw [show callResultM s c .replay = callResult s c false from rfl, callResult_log]
    simp [appendsEntry]
  | .co u l cl, .live we =>
    match h : checkoutCore u l cl s.vchk with
    | .error e => simp [callResultM, checkoutLive, h, appendsEntry]
    | .ok v =>
      match we with
      | none => simp [callResultM, checkoutLive, h, appendsEntry, callEntry]
      | some msg => simp [callResultM, checkoutLive, h, appendsEntry]
  | .ci u l cl, .live we =>
    match h : checkinCore u l cl s.vchk with
    | .error e => simp [callResultM, checkinLive, h, appendsEntry]
    | .ok v =>
      match we with
      | none => simp [callResultM, checkinLive, h, appendsEntry, callEntry]
      | some msg => simp [callResultM, checkinLive, h, appendsEntry]
  | .rs u, .live we =>
    match we with
    | none => simp [callResultM, resetLive, appendsEntry, callEntry]
    | some msg => simp [callResultM, resetLive, appendsEntry]

/-- C9 (amended): from any starting state, the durable log after a
sequence of API calls is the prior log plus exactly one entry per
successful call made in live mode whose append succeeded, in call order;
failed calls append nothing, replay-mode calls append nothing, and a
successful live call whose append fails also appends nothing, its write
error being discarded. -/
theorem log_appends_durable (s : LibState) (cs : List (apiCall × logMode)) :
    (runFull s cs).log = s.log ++ loggedEntriesFull s cs := by
  induction cs generalizing s with
  | nil => simp [runFull, loggedEntriesFull]
  | cons cm rest ih =>
    obtain ⟨c, m⟩ := cm
    have h1 : runFull s ((c, m) :: rest) = runFull (applyCallFull s (c, m)) rest := rfl
    rw [h1, ih, loggedEntriesFull]
    have h2 : (applyCallFull s (c, m)).log = (callResultM s c m).2.log := rfl
    rw [h2, callResultM_log, List.append_assoc]

/-- Counterexample to C9 as stated: a successful live checkout whose
append fails contributes no entry to the durable log, so the log does not
hold one entry per successful call. -/
theorem log_appends_cex :
    (callResultM emptyState (.co "u1" 10 "alice") (.live (some "disk full"))).1 = none ∧
    (runFull emptyState [(.co "u1" 10 "alice", .live (some "disk full"))]).log = [] := by
  exact ⟨rfl, rfl⟩

end Librarian
